import Mathlib

/-!
Verification development for the FHDL structure layer (migen/fhdl/structure.py).

The Python classes are embedded shallowly: pure constructors become Lean
functions, the raising constructors return `Except String _`, the mutable
global signal counter becomes explicit state passing, and Python dicts
become association lists (key-ordered, unique keys as a dict invariant).
-/

set_option autoImplicit false

namespace Migen

/-- BV(width=1, signed=False): the bit-vector type. -/
structure BV where
  width : Nat
  signed : Bool
deriving DecidableEq

/-- bits_for(n) on a plain integer n.

Source:
    if n < 0: return bits_for(-n) + 1
    elif n == 0: return 1
    else: return int(math.ceil(math.log(n+1, 2)))

The positive branch is modelled exactly as the ceiling base-2 logarithm
`Nat.clog 2 (n+1)` (the spec's "smallest w with n <= 2^w - 1").  The Python
source evaluates it through double-precision `math.log`, which rounds the
true value down to an integer for n = 2^49 and many larger inputs; that
divergence is recorded against the corresponding claim. -/
def bits_for (n : Int) : Nat :=
  if n < 0 then bits_for (-n) + 1
  else if n = 0 then 1
  else Nat.clog 2 (n.toNat + 1)
termination_by (if n < 0 then 1 else 0)
decreasing_by
  simp only [if_pos ‹n < 0›]
  have : ¬ (-n < 0) := by omega
  simp [this]

/-- Constant: integer value plus a bit-vector type. -/
structure Constant where
  n : Int
  bv : BV
deriving DecidableEq

/-- Constant.__init__(n, bv=None): `self.bv = bv or BV(bits_for(n), n < 0)`.
A BV object is always truthy, so `bv or default` is `Option.getD`. -/
def mkConstant (n : Int) (bv : Option BV) : Constant :=
  ⟨n, bv.getD ⟨bits_for n, decide (n < 0)⟩⟩

/-- bits_for with the `isinstance(n, Constant)` dispatch: a Constant
argument returns `len(n)`, which is its declared width. -/
def bitsForArg : Sum Constant Int → Nat
  | Sum.inl c => c.bv.width
  | Sum.inr n => bits_for n

/-- Signal object state.  The `backtrace` produced by the external
`tracer` collaborator (not part of this source file) is omitted; `order`
is the creation-order index taken from the global counter. -/
structure SignalT where
  bv : BV
  «variable» : Bool
  reset : Constant
  name_override : Option String
  order : Nat
deriving DecidableEq

/-- Arguments of Signal.__init__ (the `name` argument only feeds the
omitted tracer backtrace, so it is kept but unused). -/
structure SignalArgs where
  bv : BV
  name : Option String
  «variable» : Bool
  reset : Int
  name_override : Option String

/-- Signal.__init__ with the global class counter passed explicitly:
`self.reset = Constant(reset, bv)`, `self.order = Signal._counter`,
`Signal._counter += 1`. -/
def mkSignal (counter : Nat) (a : SignalArgs) : SignalT × Nat :=
  (⟨a.bv, a.«variable», mkConstant a.reset (some a.bv), a.name_override, counter⟩,
   counter + 1)

/-- The expression algebra: _Operator, _Slice, Cat, Replicate, Constant,
Signal as one closed inductive. -/
inductive Expr where
  | operator (op : String) (operands : List Expr)
  | slice (value : Expr) (start stop : Int)
  | cat (l : List Expr)
  | replicate (v : Expr) (n : Int)
  | const (c : Constant)
  | signal (s : SignalT)

/-- A Python argument that is either a raw int or a Value. -/
inductive PyVal where
  | int (n : Int)
  | val (v : Expr)

/-- Model of _cst(x): raw ints become `Constant(x)` (no explicit BV), Values pass
through. -/
def cst : PyVal → Expr
  | PyVal.int n => Expr.const (mkConstant n none)
  | PyVal.val v => v

/-- Model of _Operator.__init__: `self.operands = list(map(_cst, operands))`. -/
def mkOperator (op : String) (operands : List PyVal) : Expr :=
  Expr.operator op (operands.map cst)

/-- Cat.__init__: `self.l = list(map(_cst, args))`. -/
def mkCat (args : List PyVal) : Expr :=
  Expr.cat (args.map cst)

/-- Replicate.__init__: `self.v = _cst(v)`. -/
def mkReplicate (v : PyVal) (n : Int) : Expr :=
  Expr.replicate (cst v) n

/-- Model of the _Assign statement: `self.r = _cst(r)`. -/
structure Assign where
  l : Expr
  r : Expr

/-- Value.eq(r) builds an _Assign. -/
def mkAssign (l : Expr) (r : PyVal) : Assign :=
  ⟨l, cst r⟩

/-- len(value): only Constant and Signal define __len__ in this file
(their declared width). -/
def pyLen : Expr → Option Nat
  | Expr.const c => some c.bv.width
  | Expr.signal s => some s.bv.width
  | _ => none

/-- A Python subscript key: an int, or a slice with optional
start/stop/step. -/
inductive Key where
  | int (i : Int)
  | slice (start stop step : Option Int)

/-- Value.__getitem__.  For an int key: `_Slice(self, key, key+1)` (no len
call).  For a slice key: `start = key.start or 0`, `stop = key.stop or
len(self)` (both `or`s send None and 0 to the default), stop is clamped to
`len(self)`, and a non-None step raises KeyError. -/
def getItem (self : Expr) (key : Key) : Except String Expr :=
  match key with
  | Key.int i => Except.ok (Expr.slice self i (i + 1))
  | Key.slice st sp step =>
    match pyLen self with
    | none => Except.error "TypeError"
    | some w =>
      let start : Int := match st with
        | none => 0
        | some a => if a = 0 then 0 else a
      let stop : Int := match sp with
        | none => (w : Int)
        | some b => if b = 0 then (w : Int) else b
      let stop2 : Int := if stop > (w : Int) then (w : Int) else stop
      if step.isSome then Except.error "KeyError"
      else Except.ok (Expr.slice self start stop2)

/-- The statement IR: _Assign is wrapped as a statement, If carries a
condition, a true branch and a false branch. -/
inductive Stm where
  | assign (l r : Expr)
  | ifS (cond : Expr) (t : List Stm) (f : List Stm)

/-- If.__init__(cond, *t): `self.t = list(t)`, `self.f = []`. -/
def mkIf (cond : Expr) (t : List Stm) : Stm :=
  Stm.ifS cond t []

/-- Model of _insert_else(obj, clause): walk `o = o.f[0]` while `o.f` is nonempty,
asserting at each step that `o.f` is a single If, then set `o.f = clause`.
An assertion failure is modelled as an error result; calling it on a
non-If (impossible through the Else/Elif methods) is an attribute error. -/
def insertElse : Stm → List Stm → Except String Stm
  | Stm.ifS c t f, clause =>
    match f with
    | [] => Except.ok (Stm.ifS c t clause)
    | [Stm.ifS c2 t2 f2] =>
      match insertElse (Stm.ifS c2 t2 f2) clause with
      | Except.ok g => Except.ok (Stm.ifS c t [g])
      | Except.error e => Except.error e
    | _ => Except.error "AssertionError"
  | _, _ => Except.error "AttributeError"

/-- If.Else(*f): `_insert_else(self, list(f))`. -/
def IfElse (s : Stm) (f : List Stm) : Except String Stm :=
  insertElse s f

/-- If.Elif(cond, *t): `_insert_else(self, [If(cond, *t)])`. -/
def IfElif (s : Stm) (cond : Expr) (t : List Stm) : Except String Stm :=
  insertElse s [mkIf cond t]

/-- Whether the terminal false-branch slot of a conditional chain is
already occupied: walk the chain of single-If false branches; the walk
ends at an empty slot (not filled) or at anything else (filled). -/
def slotFilled : Stm → Bool
  | Stm.ifS _ _ [] => false
  | Stm.ifS _ _ [Stm.ifS c2 t2 f2] => slotFilled (Stm.ifS c2 t2 f2)
  | _ => true

/-- Attach `clause` at the terminal (empty) false-branch slot of a
conditional chain, leaving everything else in place. -/
def fillSlot : Stm → List Stm → Stm
  | Stm.ifS c t [], clause => Stm.ifS c t clause
  | Stm.ifS c t [Stm.ifS c2 t2 f2], clause =>
      Stm.ifS c t [fillSlot (Stm.ifS c2 t2 f2) clause]
  | s, _ => s

/-- The head of a Case arm: either a Default marker instance or a value. -/
inductive ArmHead where
  | defaultMark
  | val (v : Expr)

/-- Whether an arm is the default arm (`isinstance(c[0], Default)`). -/
def isDefaultArm : ArmHead × List Stm → Bool
  | (ArmHead.defaultMark, _) => true
  | (ArmHead.val _, _) => false

/-- The scan in Case.__init__ looking for the default arm: a second
Default marker raises ValueError. -/
def scanDefault : List (ArmHead × List Stm) → Option (List Stm) →
    Except String (Option (List Stm))
  | [], acc => Except.ok acc
  | (ArmHead.defaultMark, body) :: rest, acc =>
    match acc with
    | some _ => Except.error "ValueError"
    | none => scanDefault rest (some body)
  | (ArmHead.val _, _) :: rest, acc => scanDefault rest acc

/-- The list comprehension in Case.__init__: keep the non-default arms as
(match-value, statement-list) pairs, in order. -/
def matchArms (arms : List (ArmHead × List Stm)) : List (Expr × List Stm) :=
  arms.filterMap fun a =>
    match a.1 with
    | ArmHead.val v => some (v, a.2)
    | ArmHead.defaultMark => none

/-- A constructed Case: test expression, ordered match arms, default
statement list. -/
structure Case where
  test : Expr
  cases : List (Expr × List Stm)
  default : List Stm

/-- Case.__init__(test, *cases): split off the non-default arms, scan for
the default arm (two Default markers raise ValueError), and fall back to
an empty default. -/
def mkCase (test : Expr) (arms : List (ArmHead × List Stm)) :
    Except String Case :=
  match scanDefault arms none with
  | Except.error e => Except.error e
  | Except.ok d => Except.ok ⟨test, matchArms arms, d.getD []⟩

/-- Kind of an Instance I/O item (Input/Output/InOut subclasses of _IO). -/
inductive IOKind where
  | input
  | output
  | inout
deriving DecidableEq

/-- Kind of an Instance clock/reset item (ClockPort/ResetPort subclasses
of _CR). -/
inductive CRKind where
  | clockPort
  | resetPort
deriving DecidableEq

/-- One item of an Instance: an _IO binding (carrying its bound Signal),
a Parameter, or a _CR clock/reset binding with its domain name. -/
inductive InstItem where
  | io (kind : IOKind) (name : String) (signal : SignalT)
  | param (name : String) (value : Int)
  | cr (kind : CRKind) (domain : String)

/-- Instance: target module name, resolved name override, ordered items. -/
structure InstanceT where
  of : String
  name_override : String
  items : List InstItem

/-- Instance.__init__(of, *items, name=""): name_override falls back to
`of` when name is empty. -/
def mkInstance (of : String) (items : List InstItem) (name : String) :
    InstanceT :=
  ⟨of, if name = "" then of else name, items⟩

/-- MemoryPort: all fields of the source constructor; `mode` is one of
READ_FIRST = 0, WRITE_FIRST = 1, NO_CHANGE = 2. -/
structure MemoryPort where
  adr : Expr
  dat_r : Expr
  we : Option Expr
  dat_w : Option Expr
  async_read : Bool
  re : Option Expr
  we_granularity : Nat
  mode : Nat
  clock_domain : String

/-- Memory: width, depth, ordered ports, optional initial contents. -/
structure Memory where
  width : Nat
  depth : Nat
  ports : List MemoryPort
  init : Option (List Int)

/-- The sync dict of a Fragment: an association list from clock-domain
name to statement list, in insertion order.  A Python dict never holds a
key twice; theorems that need this carry it as a Nodup hypothesis. -/
def SyncMap : Type := List (String × List Stm)

/-- Dict lookup: first binding of the key, if any. -/
def dlookup : List (String × List Stm) → String → Option (List Stm)
  | [], _ => none
  | (k0, v) :: rest, k => if k0 = k then some v else dlookup rest k

/-- Dict lookup with the defaultdict(list) default: a missing key reads
as the empty list. -/
def lookupD (s : List (String × List Stm)) (k : String) : List Stm :=
  (dlookup s k).getD []

/-- Dict membership test. -/
def containsKey : List (String × List Stm) → String → Bool
  | [], _ => false
  | (k0, _) :: rest, k => k0 = k || containsKey rest k

/-- `newsync[k].extend(v)` on a defaultdict(list): extend the existing
binding, or create the key with exactly `v`. -/
def ddExtend (acc : List (String × List Stm)) (k : String) (v : List Stm) :
    List (String × List Stm) :=
  if containsKey acc k then
    acc.map fun p => if p.1 = k then (p.1, p.2 ++ v) else p
  else acc ++ [(k, v)]

/-- The sync merge of Fragment.__add__: start from a fresh copy of the
left dict, then `newsync[k].extend(v)` for each binding of the right. -/
def syncMerge (s1 s2 : List (String × List Stm)) :
    List (String × List Stm) :=
  s2.foldl (fun acc kv => ddExtend acc kv.1 kv.2) s1

/-- `d[k] = v` on a dict: overwrite the binding or append a new one. -/
def dictSet (s : List (String × List Stm)) (k : String) (v : List Stm) :
    List (String × List Stm) :=
  if containsKey s k then
    s.map fun p => if p.1 = k then (p.1, v) else p
  else s ++ [(k, v)]

/-- `del d[k]` on a dict whose key is known present. -/
def dictDel (s : List (String × List Stm)) (k : String) :
    List (String × List Stm) :=
  s.filter fun p => ¬ p.1 = k

/-- Fragment: combinational statements, per-domain synchronous
statements, instances, memories, simulation hooks (held abstractly as
numbered tokens, since hooks are external callables). -/
structure Fragment where
  comb : List Stm
  sync : List (String × List Stm)
  instances : List InstanceT
  memories : List Memory
  sim : List Nat

/-- Fragment.__add__: comb/instances/memories/sim concatenate left then
right; sync goes through the defaultdict merge. -/
def Fragment.add (f1 f2 : Fragment) : Fragment :=
  ⟨f1.comb ++ f2.comb,
   syncMerge f1.sync f2.sync,
   f1.instances ++ f2.instances,
   f1.memories ++ f2.memories,
   f1.sim ++ f2.sim⟩

/-- Fragment.rename_clock_domain(old, new), faithfully including the
source bug: the sync dict is rewritten with the literal keys "old" and
"new" (`self.sync["new"] = self.sync["old"]; del self.sync["old"]`),
raising KeyError when the literal key "old" is absent, while instance
clock/reset bindings and memory-port clock domains are rewritten with the
actual `old`/`new` arguments. -/
def Fragment.rename_clock_domain (f : Fragment) (old new : String) :
    Except String Fragment :=
  match dlookup f.sync "old" with
  | none => Except.error "KeyError"
  | some v =>
    let sync2 := dictDel (dictSet f.sync "new" v) "old"
    Except.ok
      ⟨f.comb,
       sync2,
       f.instances.map fun inst =>
         ⟨inst.of, inst.name_override,
          inst.items.map fun it =>
            match it with
            | InstItem.cr k d => if d = old then InstItem.cr k new else it
            | _ => it⟩,
       f.memories.map fun mem =>
         ⟨mem.width, mem.depth,
          mem.ports.map fun p =>
            if p.clock_domain = old then
              ⟨p.adr, p.dat_r, p.we, p.dat_w, p.async_read, p.re,
               p.we_granularity, p.mode, new⟩
            else p,
          mem.init⟩,
       f.sim⟩

/-- The domain of a _CR item, if the item is one (the
`filter(lambda x: isinstance(x, Instance._CR), inst.items)` step). -/
def crDomain : InstItem → Option String
  | InstItem.cr _ d => some d
  | _ => none

/-- Fragment.get_clock_domains(): sync keys, union instance _CR domains,
union memory-port clock domains. -/
def Fragment.get_clock_domains (f : Fragment) : Finset String :=
  ((f.sync.map Prod.fst).toFinset
    ∪ (f.instances.flatMap fun inst => inst.items.filterMap crDomain).toFinset)
    ∪ (f.memories.flatMap fun mem => mem.ports.map fun p => p.clock_domain).toFinset

/-- A run of Signal constructions from a given counter value: the states
are threaded left to right. -/
def mkSignals : Nat → List SignalArgs → List SignalT
  | _, [] => []
  | c, a :: rest =>
    let sc := mkSignal c a
    sc.1 :: mkSignals sc.2 rest

/-- Claim C3: `bits_for` is claimed to return the minimum representable
width, the smallest w with n ≤ 2^w − 1, for every n > 0.  At n = 2^49 the
exact value is 50 (2^49 does not fit in 49 bits, but fits in 50), as this
evaluation of the exact embedding shows; the Python source computes the
positive branch through double-precision `math.log`, which at this input
returns exactly 49.0, so the code answers 49 and the claim fails on it. -/
theorem bits_for_min_width_failing_input :
    bits_for (2 ^ 49) = 50
    ∧ ¬ ((2:Int) ^ 49 ≤ 2 ^ 49 - 1)
    ∧ ((2:Int) ^ 49 ≤ 2 ^ 50 - 1) := by
  refine ⟨?_, by norm_num, by norm_num⟩
  have ht : ((2 : Int) ^ 49).toNat + 1 = 562949953421313 := by
    norm_num
    rfl
  rw [bits_for, if_neg (by norm_num), if_neg (by norm_num), ht]
  have h1 : Nat.clog 2 562949953421313 ≤ 50 := by
    rw [← Nat.le_pow_iff_clog_le (by norm_num)]
    norm_num
  have h2 : ¬ Nat.clog 2 562949953421313 ≤ 49 := by
    rw [← Nat.le_pow_iff_clog_le (by norm_num)]
    norm_num
  omega

/-- Claim C9: a raw integer coerced by `_cst` (hence by every operator,
Cat, Replicate and assignment construction) becomes a Constant whose
signedness is exactly `n < 0` and whose width is `bits_for n`. -/
theorem cst_signedness_spec (n : Int) (op : String) (v : Expr) (m : Int) :
    (mkConstant n none).bv.signed = decide (n < 0)
    ∧ (mkConstant n none).bv.width = bits_for n
    ∧ cst (PyVal.int n) = Expr.const ⟨n, ⟨bits_for n, decide (n < 0)⟩⟩
    ∧ mkOperator op [PyVal.int n, PyVal.val v]
        = Expr.operator op [Expr.const ⟨n, ⟨bits_for n, decide (n < 0)⟩⟩, v]
    ∧ mkCat [PyVal.val v, PyVal.int n]
        = Expr.cat [v, Expr.const ⟨n, ⟨bits_for n, decide (n < 0)⟩⟩]
    ∧ mkReplicate (PyVal.int n) m
        = Expr.replicate (Expr.const ⟨n, ⟨bits_for n, decide (n < 0)⟩⟩) m
    ∧ mkAssign v (PyVal.int n)
        = ⟨v, Expr.const ⟨n, ⟨bits_for n, decide (n < 0)⟩⟩⟩ :=
  ⟨rfl, rfl, rfl, rfl, rfl, rfl, rfl⟩

/-- Claim C1: `rename_clock_domain(old, new)` is claimed to move the sync
entry from key `old` to key `new`.  The code instead addresses the sync
dict with the literal strings "old" and "new": renaming the domain "pix"
raises KeyError (no literal key "old"), and on a fragment whose domain is
literally named "old" any rename call moves the entry to the literal key
"new", ignoring both arguments. -/
theorem rename_clock_domain_literal_keys :
    Fragment.rename_clock_domain ⟨[], [("pix", [])], [], [], []⟩ "pix" "vga"
      = Except.error "KeyError"
    ∧ Fragment.rename_clock_domain ⟨[], [("old", [])], [], [], []⟩ "pix" "vga"
      = Except.ok ⟨[], [("new", [])], [], [], []⟩ :=
  ⟨rfl, rfl⟩

/-- Claim C4 (counterexample): on an 8-bit expression, `e[2:0]` does not
produce the Slice [2, 0) the claim's universal reading asserts; the zero
stop bound is falsy in Python, so it is replaced by the full width and
the result is the Slice [2, 8). -/
theorem getItem_zero_stop_counterexample :
    getItem (Expr.const ⟨0, ⟨8, false⟩⟩) (Key.slice (some 2) (some 0) none)
      ≠ Except.ok (Expr.slice (Expr.const ⟨0, ⟨8, false⟩⟩) 2 0)
    ∧ getItem (Expr.const ⟨0, ⟨8, false⟩⟩) (Key.slice (some 2) (some 0) none)
      = Except.ok (Expr.slice (Expr.const ⟨0, ⟨8, false⟩⟩) 2 8) := by
  constructor
  · intro h
    have h2 : Except.ok (Expr.slice (Expr.const ⟨0, ⟨8, false⟩⟩) 2 8)
        = Except.ok (Expr.slice (Expr.const ⟨0, ⟨8, false⟩⟩) 2 0) := h
    simp only [Except.ok.injEq, Expr.slice.injEq] at h2
    omega
  · rfl

/-- Claim C4 (amended: the stop bound b = 0 is excluded, since a zero
stop is falsy and treated like an omitted bound): an int key yields the
1-bit Slice [i, i+1); `e[a:b]` with b ≠ 0 yields the Slice [a, b) with b
replaced by w whenever b > w; and any slice with a step fails with
KeyError instead of producing a Slice. -/
theorem getItem_slicing_spec (e : Expr) (w : Nat) (i a b s : Int)
    (st sp : Option Int) (hw : pyLen e = some w) (hb : b ≠ 0) :
    getItem e (Key.int i) = Except.ok (Expr.slice e i (i + 1))
    ∧ getItem e (Key.slice (some a) (some b) none)
        = Except.ok (Expr.slice e a (if b > (w : Int) then (w : Int) else b))
    ∧ getItem e (Key.slice st sp (some s)) = Except.error "KeyError" := by
  refine ⟨rfl, ?_, ?_⟩
  · have ha : (if a = 0 then (0 : Int) else a) = a := by
      split
      · omega
      · rfl
    simp [getItem, hw, hb, ha]
  · simp [getItem, hw]

/-- Claim C4 (witness): instantiated on an 8-bit constant with i = 3,
a = 2, b = 20, step 2. -/
theorem getItem_slicing_spec_witness :
    getItem (Expr.const ⟨0, ⟨8, false⟩⟩) (Key.int 3)
      = Except.ok (Expr.slice (Expr.const ⟨0, ⟨8, false⟩⟩) 3 4)
    ∧ getItem (Expr.const ⟨0, ⟨8, false⟩⟩) (Key.slice (some 2) (some 20) none)
      = Except.ok (Expr.slice (Expr.const ⟨0, ⟨8, false⟩⟩) 2 8)
    ∧ getItem (Expr.const ⟨0, ⟨8, false⟩⟩) (Key.slice (some 2) (some 20) (some 2))
      = Except.error "KeyError" := by
  have h := getItem_slicing_spec (Expr.const ⟨0, ⟨8, false⟩⟩) 8 3 2 20 2
    (some 2) (some 20) rfl (by decide)
  refine ⟨?_, ?_, h.2.2⟩
  · have := h.1
    simpa using this
  · have := h.2.1
    simpa using this

/-- Claim C10: in the slicing sugar, a stop bound of 0 behaves like an
omitted stop and is replaced by the full width, so `e[a:0]` is the Slice
[a, w); an omitted start behaves exactly like a start of 0. -/
theorem getItem_zero_bounds_spec (e : Expr) (w : Nat) (a : Int)
    (sp : Option Int) (hw : pyLen e = some w) (hpos : 0 < w) :
    getItem e (Key.slice (some a) (some 0) none)
      = Except.ok (Expr.slice e a w)
    ∧ getItem e (Key.slice (some a) none none)
      = Except.ok (Expr.slice e a w)
    ∧ getItem e (Key.slice none sp none)
      = getItem e (Key.slice (some 0) sp none) := by
  have ha : (if a = 0 then (0 : Int) else a) = a := by
    split
    · omega
    · rfl
  refine ⟨?_, ?_, ?_⟩
  · simp [getItem, hw, ha]
  · simp [getItem, hw, ha]
  · simp [getItem, hw]

/-- Claim C10 (witness): instantiated on an 8-bit constant with a = 2. -/
theorem getItem_zero_bounds_spec_witness :
    getItem (Expr.const ⟨0, ⟨8, false⟩⟩) (Key.slice (some 2) (some 0) none)
      = Except.ok (Expr.slice (Expr.const ⟨0, ⟨8, false⟩⟩) 2 8)
    ∧ getItem (Expr.const ⟨0, ⟨8, false⟩⟩) (Key.slice (some 2) none none)
      = Except.ok (Expr.slice (Expr.const ⟨0, ⟨8, false⟩⟩) 2 8)
    ∧ getItem (Expr.const ⟨0, ⟨8, false⟩⟩) (Key.slice none (some 5) none)
      = getItem (Expr.const ⟨0, ⟨8, false⟩⟩) (Key.slice (some 0) (some 5) none) := by
  have h := getItem_zero_bounds_spec (Expr.const ⟨0, ⟨8, false⟩⟩) 8 2
    (some 5) rfl (by decide)
  exact ⟨by simpa using h.1, by simpa using h.2.1, h.2.2⟩

/-- Helper: crDomain extracts some d exactly on clock/reset items. -/
theorem crDomain_eq_some {it : InstItem} {d : String} :
    crDomain it = some d ↔ ∃ k, it = InstItem.cr k d := by
  cases it <;> simp [crDomain]

/-- Claim C7: membership in `get_clock_domains()` is exactly: a sync key,
or the domain of some clock/reset binding of some instance, or the clock
domain of some port of some memory. -/
theorem get_clock_domains_spec (f : Fragment) (d : String) :
    d ∈ f.get_clock_domains ↔
      (∃ p ∈ f.sync, p.1 = d)
      ∨ (∃ inst ∈ f.instances, ∃ it ∈ inst.items, ∃ k, it = InstItem.cr k d)
      ∨ (∃ mem ∈ f.memories, ∃ port ∈ mem.ports, port.clock_domain = d) := by
  unfold Fragment.get_clock_domains
  simp only [Finset.mem_union, List.mem_toFinset, List.mem_map,
    List.mem_flatMap, List.mem_filterMap, crDomain_eq_some, or_assoc]

/-- Helper: containsKey coincides with membership among the keys. -/
theorem containsKey_iff_mem (l : List (String × List Stm)) (q : String) :
    containsKey l q = true ↔ q ∈ l.map Prod.fst := by
  induction l with
  | nil => simp [containsKey]
  | cons p rest ih =>
    obtain ⟨k0, v0⟩ := p
    simp only [containsKey, List.map_cons, List.mem_cons, Bool.or_eq_true,
      decide_eq_true_eq, ih]
    constructor
    · rintro (h | h)
      · exact Or.inl h.symm
      · exact Or.inr h
    · rintro (h | h)
      · exact Or.inl h.symm
      · exact Or.inr h

/-- Helper: an absent key reads back as none. -/
theorem dlookup_eq_none (l : List (String × List Stm)) (q : String)
    (h : containsKey l q = false) : dlookup l q = none := by
  induction l with
  | nil => rfl
  | cons p rest ih =>
    obtain ⟨k0, v0⟩ := p
    simp [containsKey] at h
    simp [dlookup, h.1, ih h.2]

/-- Helper: dict lookup across an append. -/
theorem dlookup_append (l1 l2 : List (String × List Stm)) (q : String) :
    dlookup (l1 ++ l2) q
      = match dlookup l1 q with
        | some v => some v
        | none => dlookup l2 q := by
  induction l1 with
  | nil => simp [dlookup]
  | cons p rest ih =>
    obtain ⟨k0, v0⟩ := p
    by_cases h : k0 = q
    · simp [dlookup, h]
    · simp [dlookup, h, ih]

/-- Helper: a present key has some binding. -/
theorem dlookup_isSome_of_containsKey (l : List (String × List Stm))
    (q : String) (h : containsKey l q = true) :
    ∃ w, dlookup l q = some w := by
  induction l with
  | nil => simp [containsKey] at h
  | cons p rest ih =>
    obtain ⟨k0, v0⟩ := p
    by_cases h0 : k0 = q
    · exact ⟨v0, by simp [dlookup, h0]⟩
    · simp only [containsKey, Bool.or_eq_true, decide_eq_true_eq] at h
      rcases h with h | h
      · exact absurd h h0
      · obtain ⟨w, hw⟩ := ih h
        exact ⟨w, by simp [dlookup, h0, hw]⟩

/-- Helper: the head step of the value-extending map, evaluated. -/
theorem extend_map_head (k : String) (v : List Stm) (k0 : String)
    (v0 : List Stm) :
    (if ((k0, v0) : String × List Stm).1 = k
        then (((k0, v0) : String × List Stm).1,
              ((k0, v0) : String × List Stm).2 ++ v)
        else ((k0, v0) : String × List Stm))
      = (k0, if k0 = k then v0 ++ v else v0) := by
  by_cases h : k0 = k
  · rw [if_pos h, if_pos h]
  · rw [if_neg h, if_neg h]

/-- Helper: the value-extending map leaves lookups at other keys alone. -/
theorem dlookup_extend_map_ne (acc : List (String × List Stm))
    (k : String) (v : List Stm) (q : String) (hq : q ≠ k) :
    dlookup (acc.map fun p => if p.1 = k then (p.1, p.2 ++ v) else p) q
      = dlookup acc q := by
  induction acc with
  | nil => rfl
  | cons p rest ih =>
    obtain ⟨k0, v0⟩ := p
    rw [List.map_cons, extend_map_head]
    by_cases hq0 : k0 = q
    · have hne : ¬ (k0 = k) := fun h => hq (hq0.symm.trans h)
      simp only [dlookup]
      rw [if_pos hq0, if_pos hq0, if_neg hne]
    · simp only [dlookup]
      rw [if_neg hq0, if_neg hq0]
      exact ih

/-- Helper: the value-extending map appends v at the key it targets. -/
theorem dlookup_extend_map_eq (acc : List (String × List Stm))
    (k : String) (v : List Stm) (w : List Stm)
    (hw : dlookup acc k = some w) :
    dlookup (acc.map fun p => if p.1 = k then (p.1, p.2 ++ v) else p) k
      = some (w ++ v) := by
  induction acc with
  | nil => simp [dlookup] at hw
  | cons p rest ih =>
    obtain ⟨k0, v0⟩ := p
    rw [List.map_cons, extend_map_head]
    by_cases h0 : k0 = k
    · have hw2 : v0 = w := by
        simp only [dlookup] at hw
        rw [if_pos h0] at hw
        exact Option.some.inj hw
      simp only [dlookup]
      rw [if_pos h0, if_pos h0, hw2]
    · have hw2 : dlookup rest k = some w := by
        simp only [dlookup] at hw
        rwa [if_neg h0] at hw
      simp only [dlookup]
      rw [if_neg h0]
      exact ih hw2

/-- Helper: the value-extending map preserves the key set. -/
theorem containsKey_extend_map (acc : List (String × List Stm))
    (k : String) (v : List Stm) (q : String) :
    containsKey (acc.map fun p => if p.1 = k then (p.1, p.2 ++ v) else p) q
      = containsKey acc q := by
  induction acc with
  | nil => rfl
  | cons p rest ih =>
    obtain ⟨k0, v0⟩ := p
    rw [List.map_cons, extend_map_head]
    simp only [containsKey]
    rw [ih]

/-- Helper: key presence across an append. -/
theorem containsKey_append (l1 l2 : List (String × List Stm)) (q : String) :
    containsKey (l1 ++ l2) q = (containsKey l1 q || containsKey l2 q) := by
  induction l1 with
  | nil => simp [containsKey]
  | cons p rest ih =>
    obtain ⟨k0, v0⟩ := p
    simp [containsKey, ih, Bool.or_assoc]

/-- Helper: lookup after the defaultdict extend step. -/
theorem lookupD_ddExtend (acc : List (String × List Stm)) (k : String)
    (v : List Stm) (q : String) :
    lookupD (ddExtend acc k v) q
      = if q = k then lookupD acc q ++ v else lookupD acc q := by
  unfold ddExtend
  by_cases hc : containsKey acc k
  · rw [if_pos hc]
    by_cases hq : q = k
    · subst hq
      rw [if_pos rfl]
      obtain ⟨w, hw⟩ := dlookup_isSome_of_containsKey acc q hc
      unfold lookupD
      rw [dlookup_extend_map_eq acc q v w hw, hw]
      rfl
    · rw [if_neg hq]
      unfold lookupD
      rw [dlookup_extend_map_ne acc k v q hq]
  · rw [if_neg hc]
    by_cases hq : q = k
    · subst hq
      rw [if_pos rfl]
      have h1 : dlookup acc q = none :=
        dlookup_eq_none acc q (by simpa using hc)
      unfold lookupD
      rw [dlookup_append, h1]
      simp [dlookup]
    · rw [if_neg hq]
      have hkq : ¬ (k = q) := fun h => hq h.symm
      unfold lookupD
      rw [dlookup_append]
      cases h : dlookup acc q with
      | some r => rfl
      | none => simp [dlookup, hkq]

/-- Helper: key presence after the defaultdict extend step. -/
theorem containsKey_ddExtend (acc : List (String × List Stm)) (k : String)
    (v : List Stm) (q : String) :
    containsKey (ddExtend acc k v) q
      = (containsKey acc q || decide (q = k)) := by
  unfold ddExtend
  by_cases hc : containsKey acc k
  · rw [if_pos hc, containsKey_extend_map]
    by_cases hq : q = k
    · subst hq
      simp [hc]
    · simp [hq]
  · rw [if_neg hc, containsKey_append]
    by_cases hq : q = k
    · subst hq
      simp [containsKey]
    · have hkq : ¬ (k = q) := fun h => hq h.symm
      simp [containsKey, hkq, hq]

/-- Helper: the sync merge of Fragment.__add__ concatenates bindings per
key, provided the right dict holds each key once. -/
theorem lookupD_syncMerge (s2 : List (String × List Stm)) :
    ∀ (acc : List (String × List Stm)) (q : String),
    (s2.map Prod.fst).Nodup →
    lookupD (syncMerge acc s2) q = lookupD acc q ++ lookupD s2 q := by
  induction s2 with
  | nil =>
    intro acc q _
    simp [syncMerge, lookupD, dlookup]
  | cons p rest ih =>
    intro acc q h
    obtain ⟨k0, v0⟩ := p
    simp only [List.map_cons, List.nodup_cons] at h
    have hstep : syncMerge acc ((k0, v0) :: rest)
        = syncMerge (ddExtend acc k0 v0) rest := rfl
    rw [hstep, ih (ddExtend acc k0 v0) q h.2, lookupD_ddExtend]
    by_cases hq : q = k0
    · subst hq
      have hnc : containsKey rest q = false := by
        cases hcb : containsKey rest q
        · rfl
        · exact absurd ((containsKey_iff_mem rest q).mp hcb) h.1
      have h1 : dlookup rest q = none := dlookup_eq_none rest q hnc
      simp [lookupD, dlookup, h1]
    · have hk0q : ¬ (k0 = q) := fun hh => hq hh.symm
      simp [lookupD, dlookup, hq, hk0q]

/-- Helper: key presence in the merged sync dict. -/
theorem containsKey_syncMerge (s2 : List (String × List Stm)) :
    ∀ (acc : List (String × List Stm)) (q : String),
    containsKey (syncMerge acc s2) q
      = (containsKey acc q || containsKey s2 q) := by
  induction s2 with
  | nil =>
    intro acc q
    simp [syncMerge, containsKey]
  | cons p rest ih =>
    intro acc q
    obtain ⟨k0, v0⟩ := p
    have hstep : syncMerge acc ((k0, v0) :: rest)
        = syncMerge (ddExtend acc k0 v0) rest := rfl
    rw [hstep, ih (ddExtend acc k0 v0) q, containsKey_ddExtend]
    by_cases hq : q = k0
    · subst hq
      simp [containsKey, Bool.or_assoc]
    · have hk0q : ¬ (k0 = q) := fun hh => hq hh.symm
      simp [containsKey, hq, hk0q, Bool.or_assoc]

/-- Claim C2: Fragment merge concatenates comb left-then-right, merges
sync per key (missing keys read as empty, keys of either side survive),
and concatenates instances, memories and sim in order.  The embedding is
pure, so neither operand is (or can be) mutated by the merge. -/
theorem fragment_add_spec (f1 f2 : Fragment) (k : String)
    (h2 : (f2.sync.map Prod.fst).Nodup) :
    (f1.add f2).comb = f1.comb ++ f2.comb
    ∧ lookupD (f1.add f2).sync k = lookupD f1.sync k ++ lookupD f2.sync k
    ∧ containsKey (f1.add f2).sync k
        = (containsKey f1.sync k || containsKey f2.sync k)
    ∧ (f1.add f2).instances = f1.instances ++ f2.instances
    ∧ (f1.add f2).memories = f1.memories ++ f2.memories
    ∧ (f1.add f2).sim = f1.sim ++ f2.sim :=
  ⟨rfl, lookupD_syncMerge f2.sync f1.sync k h2,
   containsKey_syncMerge f2.sync f1.sync k, rfl, rfl, rfl⟩

/-- Concrete statements used by the closed witness instances. -/
def stA : Stm := Stm.ifS (Expr.operator "a" []) [] []

/-- Second concrete statement for witnesses. -/
def stB : Stm := Stm.ifS (Expr.operator "b" []) [] []

/-- Third concrete statement for witnesses. -/
def stC : Stm := Stm.ifS (Expr.operator "c" []) [] []

/-- Claim C2 (witness): the spec's example merge, with sync maps
{"sys": [stA]} and {"sys": [stB], "pix": [stC]}. -/
theorem fragment_add_spec_witness :
    lookupD (Fragment.add ⟨[stA], [("sys", [stA])], [], [], []⟩
        ⟨[stB], [("sys", [stB]), ("pix", [stC])], [], [], []⟩).sync "sys"
      = [stA, stB]
    ∧ lookupD (Fragment.add ⟨[stA], [("sys", [stA])], [], [], []⟩
        ⟨[stB], [("sys", [stB]), ("pix", [stC])], [], [], []⟩).sync "pix"
      = [stC]
    ∧ (Fragment.add ⟨[stA], [("sys", [stA])], [], [], []⟩
        ⟨[stB], [("sys", [stB]), ("pix", [stC])], [], [], []⟩).comb
      = [stA, stB] := by
  have h1 := fragment_add_spec ⟨[stA], [("sys", [stA])], [], [], []⟩
      ⟨[stB], [("sys", [stB]), ("pix", [stC])], [], [], []⟩ "sys" (by simp)
  have h2 := fragment_add_spec ⟨[stA], [("sys", [stA])], [], [], []⟩
      ⟨[stB], [("sys", [stB]), ("pix", [stC])], [], [], []⟩ "pix" (by simp)
  refine ⟨?_, ?_, h1.1⟩
  · have := h1.2.1
    simpa [lookupD, dlookup] using this
  · have := h2.2.1
    simpa [lookupD, dlookup] using this

/-- Helper: arms without a default marker pass the default scan through. -/
theorem scanDefault_append (pre l2 : List (ArmHead × List Stm)) :
    ∀ acc, (∀ a ∈ pre, isDefaultArm a = false) →
    scanDefault (pre ++ l2) acc = scanDefault l2 acc := by
  induction pre with
  | nil =>
    intro acc _
    rfl
  | cons a rest ih =>
    intro acc h
    obtain ⟨hd, body⟩ := a
    cases hd with
    | defaultMark =>
      have hh := h (ArmHead.defaultMark, body) (List.mem_cons_self _ _)
      simp [isDefaultArm] at hh
    | val v =>
      exact ih acc fun x hx => h x (List.mem_cons_of_mem _ hx)

/-- Helper: a scan over default-free arms returns its accumulator. -/
theorem scanDefault_no_default (l : List (ArmHead × List Stm)) :
    ∀ acc, (∀ a ∈ l, isDefaultArm a = false) →
    scanDefault l acc = Except.ok acc := by
  induction l with
  | nil =>
    intro acc _
    rfl
  | cons a rest ih =>
    intro acc h
    obtain ⟨hd, body⟩ := a
    cases hd with
    | defaultMark =>
      have hh := h (ArmHead.defaultMark, body) (List.mem_cons_self _ _)
      simp [isDefaultArm] at hh
    | val v =>
      exact ih acc fun x hx => h x (List.mem_cons_of_mem _ hx)

/-- Helper: once a default is held, another marker anywhere errors. -/
theorem scanDefault_some_err (l : List (ArmHead × List Stm)) :
    ∀ b, (∃ a ∈ l, isDefaultArm a = true) →
    scanDefault l (some b) = Except.error "ValueError" := by
  induction l with
  | nil =>
    intro b h
    obtain ⟨a, ha, _⟩ := h
    simp at ha
  | cons a rest ih =>
    intro b h
    obtain ⟨hd, body⟩ := a
    cases hd with
    | defaultMark => rfl
    | val v =>
      obtain ⟨x, hx, hxd⟩ := h
      rcases List.mem_cons.mp hx with rfl | hx2
      · simp [isDefaultArm] at hxd
      · exact ih b ⟨x, hx2, hxd⟩

/-- Helper: a scan over arms holding two default markers errors from any
accumulator. -/
theorem scanDefault_two_defaults (u v' w' : List (ArmHead × List Stm))
    (d1 d2 : List Stm) :
    ∀ acc, scanDefault
        (u ++ (ArmHead.defaultMark, d1) :: v' ++ (ArmHead.defaultMark, d2) :: w')
        acc
      = Except.error "ValueError" := by
  induction u with
  | nil =>
    intro acc
    cases acc with
    | some b => rfl
    | none =>
      show scanDefault (v' ++ (ArmHead.defaultMark, d2) :: w') (some d1)
          = Except.error "ValueError"
      exact scanDefault_some_err _ d1
        ⟨(ArmHead.defaultMark, d2),
         List.mem_append.mpr (Or.inr (List.mem_cons_self _ _)), rfl⟩
  | cons a rest ih =>
    intro acc
    obtain ⟨hd, body⟩ := a
    cases hd with
    | defaultMark =>
      cases acc with
      | some b => rfl
      | none => exact ih (some body)
    | val v => exact ih acc

/-- Helper: the match arms count the non-default arms. -/
theorem matchArms_length (l : List (ArmHead × List Stm)) :
    (matchArms l).length = (l.filter fun a => ! isDefaultArm a).length := by
  induction l with
  | nil => rfl
  | cons a rest ih =>
    obtain ⟨hd, body⟩ := a
    cases hd with
    | defaultMark =>
      simpa [matchArms, isDefaultArm, List.filterMap_cons, List.filter_cons]
        using ih
    | val v =>
      simpa [matchArms, isDefaultArm, List.filterMap_cons, List.filter_cons]
        using ih

/-- Claim C5: Case construction with one Default marker keeps exactly the
non-default arms, in their original relative order, wherever the marker
sits, with the marked statement list as the default; two Default markers
raise ValueError regardless of everything around them. -/
theorem case_default_spec (t : Expr) (pre post u v' w' : List (ArmHead × List Stm))
    (d d1 d2 : List Stm)
    (hpre : ∀ a ∈ pre, isDefaultArm a = false)
    (hpost : ∀ a ∈ post, isDefaultArm a = false) :
    (mkCase t (pre ++ (ArmHead.defaultMark, d) :: post)
        = Except.ok ⟨t, matchArms pre ++ matchArms post, d⟩
      ∧ (matchArms pre ++ matchArms post).length
          = ((pre ++ (ArmHead.defaultMark, d) :: post).filter
              fun a => ! isDefaultArm a).length)
    ∧ mkCase t (u ++ (ArmHead.defaultMark, d1) :: v' ++ (ArmHead.defaultMark, d2) :: w')
        = Except.error "ValueError" := by
  have hm : matchArms (pre ++ (ArmHead.defaultMark, d) :: post)
      = matchArms pre ++ matchArms post := by
    unfold matchArms
    rw [List.filterMap_append]
    rfl
  refine ⟨⟨?_, ?_⟩, ?_⟩
  · have hscan : scanDefault (pre ++ (ArmHead.defaultMark, d) :: post) none
        = Except.ok (some d) := by
      rw [scanDefault_append pre _ none hpre]
      show scanDefault post (some d) = Except.ok (some d)
      exact scanDefault_no_default post (some d) hpost
    unfold mkCase
    rw [hscan, hm]
    rfl
  · rw [← hm, matchArms_length]
  · unfold mkCase
    rw [scanDefault_two_defaults u v' w' d1 d2 none]

/-- Claim C5 (witness): one Default between two match arms, and two bare
Default markers. -/
theorem case_default_spec_witness :
    mkCase (Expr.operator "t" [])
        [(ArmHead.val (Expr.operator "x" []), [stA]),
         (ArmHead.defaultMark, [stB]),
         (ArmHead.val (Expr.operator "y" []), [stC])]
      = Except.ok ⟨Expr.operator "t" [],
          [(Expr.operator "x" [], [stA]), (Expr.operator "y" [], [stC])],
          [stB]⟩
    ∧ mkCase (Expr.operator "t" [])
        [(ArmHead.defaultMark, [stA]), (ArmHead.defaultMark, [stB])]
      = Except.error "ValueError" := by
  have h := case_default_spec (Expr.operator "t" [])
      [(ArmHead.val (Expr.operator "x" []), [stA])]
      [(ArmHead.val (Expr.operator "y" []), [stC])]
      [] [] [] [stB] [stA] [stB]
      (by simp [isDefaultArm]) (by simp [isDefaultArm])
  constructor
  · have := h.1.1
    simpa [matchArms] using this
  · exact h.2

/-- Helper: the walk of _insert_else succeeds exactly when the terminal
false-branch slot is empty (filling it there), and fails with the
assertion error when it is occupied. -/
theorem insertElse_cases (s : Stm) (clause : List Stm) :
    (slotFilled s = false →
      insertElse s clause = Except.ok (fillSlot s clause))
    ∧ (∀ c t f, s = Stm.ifS c t f → slotFilled s = true →
      insertElse s clause = Except.error "AssertionError") := by
  induction s, clause using insertElse.induct with
  | case1 c t clause =>
    refine ⟨fun _ => ?_, fun c' t' f' heq hfill => ?_⟩
    · simp [insertElse, fillSlot]
    · simp [slotFilled] at hfill
  | case2 c t clause c2 t2 f2 g hg ih =>
    refine ⟨fun hf => ?_, fun c' t' f' heq hfill => ?_⟩
    · have hf2 : slotFilled (Stm.ifS c2 t2 f2) = false := by
        simpa [slotFilled] using hf
      have hok := ih.1 hf2
      rw [hg] at hok
      have hgf : g = fillSlot (Stm.ifS c2 t2 f2) clause := Except.ok.inj hok
      simp [insertElse, hg, fillSlot, hgf]
    · have hf2 : slotFilled (Stm.ifS c2 t2 f2) = true := by
        simpa [slotFilled] using hfill
      have herr := ih.2 c2 t2 f2 rfl hf2
      rw [hg] at herr
      exact absurd herr (by simp)
  | case3 c t clause c2 t2 f2 e he ih =>
    refine ⟨fun hf => ?_, fun c' t' f' heq hfill => ?_⟩
    · have hf2 : slotFilled (Stm.ifS c2 t2 f2) = false := by
        simpa [slotFilled] using hf
      have hok := ih.1 hf2
      rw [he] at hok
      exact absurd hok (by simp)
    · have hf2 : slotFilled (Stm.ifS c2 t2 f2) = true := by
        simpa [slotFilled] using hfill
      have herr := ih.2 c2 t2 f2 rfl hf2
      rw [he] at herr
      have he2 : e = "AssertionError" := by simpa using herr
      simp [insertElse, he, he2]
  | case4 c t f clause h1 h2 =>
    refine ⟨fun hf => ?_, fun c' t' f' heq hfill => ?_⟩
    · exfalso
      cases f with
      | nil => exact h1 rfl
      | cons g rest =>
        cases rest with
        | nil =>
          cases g with
          | assign l r => simp [slotFilled] at hf
          | ifS cg tg fg => exact h2 cg tg fg rfl
        | cons g2 rest2 => simp [slotFilled] at hf
    · cases f with
      | nil => exact absurd rfl h1
      | cons g rest =>
        cases rest with
        | nil =>
          cases g with
          | assign l r => simp [insertElse]
          | ifS cg tg fg => exact absurd rfl (h2 cg tg fg)
        | cons g2 rest2 => simp [insertElse]
  | case5 s clause hne =>
    refine ⟨fun hf => ?_, fun c' t' f' heq hfill => ?_⟩
    · exfalso
      cases s with
      | assign l r => simp [slotFilled] at hf
      | ifS c t f => exact hne c t f rfl
    · exact (hne c' t' f' heq).elim

/-- Claim C6: If starts with an empty false branch; Else and Elif walk
the single-If false-branch chain and attach at the empty terminal slot;
when the terminal slot is already occupied the attachment fails with the
assertion error instead of modifying the chain. -/
theorem conditional_chain_spec :
    (∀ cond t, mkIf cond t = Stm.ifS cond t [])
    ∧ (∀ s clause, slotFilled s = false →
        insertElse s clause = Except.ok (fillSlot s clause))
    ∧ (∀ c t f clause, slotFilled (Stm.ifS c t f) = true →
        insertElse (Stm.ifS c t f) clause = Except.error "AssertionError")
    ∧ (∀ s f, IfElse s f = insertElse s f)
    ∧ (∀ s c t, IfElif s c t = insertElse s [Stm.ifS c t []]) := by
  refine ⟨fun cond t => rfl, ?_, ?_, fun s f => rfl, fun s c t => rfl⟩
  · intro s clause h
    exact (insertElse_cases s clause).1 h
  · intro c t f clause h
    exact (insertElse_cases (Stm.ifS c t f) clause).2 c t f rfl h

/-- Concrete assignment statement for the C6 witness (a single non-If
statement occupying a false-branch slot). -/
def stAssign : Stm := Stm.assign (Expr.operator "l" []) (Expr.operator "r" [])

/-- Claim C6 (witness): attaching to an empty terminal succeeds and fills
it; attaching to a terminal already holding a non-If statement fails. -/
theorem conditional_chain_spec_witness :
    insertElse (Stm.ifS (Expr.operator "x" []) [stA] []) [stB]
      = Except.ok (Stm.ifS (Expr.operator "x" []) [stA] [stB])
    ∧ insertElse (Stm.ifS (Expr.operator "x" []) [stA] [stAssign]) [stC]
      = Except.error "AssertionError" := by
  have h := conditional_chain_spec
  constructor
  · have h1 := h.2.1 (Stm.ifS (Expr.operator "x" []) [stA] []) [stB]
      (by simp [slotFilled])
    simpa [fillSlot] using h1
  · exact h.2.2.1 (Expr.operator "x" []) [stA] [stAssign] [stC]
      (by simp [slotFilled, stAssign])

/-- Helper: a construction run produces one Signal per argument list. -/
theorem mkSignals_length (args : List SignalArgs) :
    ∀ c, (mkSignals c args).length = args.length := by
  induction args with
  | nil =>
    intro c
    rfl
  | cons a rest ih =>
    intro c
    simp [mkSignals, mkSignal, ih]

/-- Helper: the i-th Signal of a run starting at counter c has creation
index c + i. -/
theorem mkSignals_get_order (args : List SignalArgs) :
    ∀ (c i : Nat) (h : i < (mkSignals c args).length),
    ((mkSignals c args).get ⟨i, h⟩).order = c + i := by
  induction args with
  | nil =>
    intro c i h
    simp [mkSignals] at h
  | cons a rest ih =>
    intro c i h
    cases i with
    | zero => rfl
    | succ n =>
      have h2 : n < (mkSignals (c + 1) rest).length := by
        have hc := h
        rw [mkSignals_length] at hc
        rw [mkSignals_length]
        simp only [List.length_cons] at hc
        omega
      have step : ((mkSignals c (a :: rest)).get ⟨n + 1, h⟩).order
          = ((mkSignals (c + 1) rest).get ⟨n, h2⟩).order := rfl
      rw [step, ih (c + 1) n h2]
      omega

/-- Claim C8: consecutive Signal constructions, even from identical
arguments, produce distinct signals with strictly increasing creation
indices, and along any construction run the indices are strictly
monotone (hence globally unique). -/
theorem signal_order_spec (c : Nat) (a1 a2 : SignalArgs)
    (args : List SignalArgs) (i j : Nat)
    (hij : i < j) (hj : j < (mkSignals c args).length) :
    (mkSignal c a1).1.order < (mkSignal (mkSignal c a1).2 a2).1.order
    ∧ (mkSignal c a1).1 ≠ (mkSignal (mkSignal c a1).2 a2).1
    ∧ ((mkSignals c args).get ⟨i, Nat.lt_trans hij hj⟩).order
        < ((mkSignals c args).get ⟨j, hj⟩).order
    ∧ (mkSignals c args).get ⟨i, Nat.lt_trans hij hj⟩
        ≠ (mkSignals c args).get ⟨j, hj⟩ := by
  have hi := mkSignals_get_order args c i (Nat.lt_trans hij hj)
  have hjo := mkSignals_get_order args c j hj
  refine ⟨Nat.lt_succ_self c, ?_, ?_, ?_⟩
  · intro h
    have horder := congrArg SignalT.order h
    simp [mkSignal] at horder
  · rw [hi, hjo]
    omega
  · intro h
    have horder := congrArg SignalT.order h
    rw [hi, hjo] at horder
    omega

/-- Concrete Signal arguments for the C8 witness: two constructions with
identical width, signedness, reset and name. -/
def argsW : SignalArgs := ⟨⟨1, false⟩, none, false, 0, none⟩

/-- Claim C8 (witness): two identical-argument constructions starting at
counter 0. -/
theorem signal_order_spec_witness :
    (mkSignal 0 argsW).1.order < (mkSignal (mkSignal 0 argsW).2 argsW).1.order
    ∧ (mkSignal 0 argsW).1 ≠ (mkSignal (mkSignal 0 argsW).2 argsW).1
    ∧ ((mkSignals 0 [argsW, argsW]).get
        ⟨0, by simp [mkSignals_length]⟩).order
        < ((mkSignals 0 [argsW, argsW]).get
            ⟨1, by simp [mkSignals_length]⟩).order
    ∧ (mkSignals 0 [argsW, argsW]).get ⟨0, by simp [mkSignals_length]⟩
        ≠ (mkSignals 0 [argsW, argsW]).get ⟨1, by simp [mkSignals_length]⟩ :=
  signal_order_spec 0 argsW argsW [argsW, argsW] 0 1 (by omega)
    (by simp [mkSignals_length])

end Migen
